import Mathlib

/-!
Verification of the MiniShazam fingerprint matcher and audio-processing core.

The definitions below are a shallow embedding of the Python sources:

* `orchestrator.py` — the matcher `identify_from_hashes` and its confidence
  thresholds;
* `audioProcessing/SASP_audio_processing.py` — the spectrogram routine
  `_compute_manual_spectrogram`, the WAV entry point
  `generate_spectrogram_from_wav`, the peak extractor
  `_extract_peak_constellation` and the constellation hasher
  `generate_constellation_hashes`;
* `Database/database.py` — abstracted as the `Catalog` record, one field per
  query the matcher issues.

Machine floats are modelled by `ℚ`; external numpy numeric kernels
(`np.hamming`, `np.fft.fft`, `np.log1p`) and the external WAV decoder are
parameters of the embedding, since their values are produced by libraries
outside this repository.
-/

/-- Hash triple `(anchor_freq_idx, target_freq_idx, delta_time)` as built by
`generate_constellation_hashes` in `SASP_audio_processing.py`. -/
abbrev HashTriple : Type := ℕ × ℕ × ℕ

/-- One hash entry `(hash_tuple, anchor_time_idx)`, the element type of the
lists produced by the hasher and consumed by the matcher. -/
abbrev HashEntry : Type := HashTriple × ℕ

/-- Abstract view of the PostgreSQL store as consulted by
`identify_from_hashes` in `orchestrator.py`:
`maxTrackId` models `db.get_highest_track_id` (`None` when the `music` table
is empty), `signatures` models `db.fetch_track_signatures` (the list of
`(center, signature)` rows of one track), and `titles` models
`db.get_track_name_by_id`. -/
structure Catalog where
  maxTrackId : Option ℕ
  signatures : ℕ → List (ℕ × HashTriple)
  titles : ℕ → String

/-- Constant `MIN_ABSOLUTE_VOTES` from `orchestrator.py`. -/
def MIN_ABSOLUTE_VOTES : ℕ := 5

/-- Constant `MIN_SNIPPET_VOTE_RATIO = 0.006` from `orchestrator.py` (renamed
here). -/
def MIN_SNIPPET_VOTE_FRAC : ℚ := 6 / 1000

/-- Constant `MIN_STORED_VOTE_RATIO = 0.004` from `orchestrator.py` (renamed
here). -/
def MIN_STORED_VOTE_FRAC : ℚ := 4 / 1000

/-- Lookup table `hash_to_snippet_times[h]`: the anchor times of the query
entries carrying hash `h`, in query order (the `defaultdict(list)` built at
the top of `identify_from_hashes`). -/
def snippetTimes (q : List HashEntry) (h : HashTriple) : List ℕ :=
  (q.filter (fun e => e.1 = h)).map (fun e => e.2)

/-- Multiset of offsets `anchor_time_idx - snippet_time` voted on in the inner
loops of `identify_from_hashes`, one list element per increment of
`offset_votes[offset]`. -/
def matchOffsets (q : List HashEntry) (stored : List (ℕ × HashTriple)) : List ℤ :=
  ((stored.map (fun s => (snippetTimes q s.2).map (fun t => (s.1 : ℤ) - (t : ℤ))))).flatten

/-- Value `best_vote = max(offset_votes.values())`: the largest multiplicity
of any offset in `matchOffsets`, and `0` when no stored hash matched. -/
def bestVote (q : List HashEntry) (stored : List (ℕ × HashTriple)) : ℕ :=
  let offs := matchOffsets q stored
  (offs.map (fun o => offs.count o)).foldl max 0

/-- One element of the `score_details` list of `identify_from_hashes`. -/
structure ScoreDetail where
  songId : ℕ
  votes : ℕ
  ratio : ℚ
  storedRatio : ℚ
  score : ℚ
deriving DecidableEq

/-- Entry of `score_details` computed for one `song_id` in
`identify_from_hashes`: a zero row for tracks with no stored hashes
(`if not stored_hash_count`), no matching offset (`if not offset_votes`) or a
failed confidence gate, and otherwise the votes, coverage ratios and combined
score. -/
def scoreDetailFor (q : List HashEntry) (cat : Catalog) (songId : ℕ) : ScoreDetail :=
  if (cat.signatures songId).length = 0 then ⟨songId, 0, 0, 0, 0⟩
  else if matchOffsets q (cat.signatures songId) = [] then ⟨songId, 0, 0, 0, 0⟩
  else if bestVote q (cat.signatures songId) < MIN_ABSOLUTE_VOTES ∨
      (bestVote q (cat.signatures songId) : ℚ) / (q.length : ℚ) < MIN_SNIPPET_VOTE_FRAC ∨
      (bestVote q (cat.signatures songId) : ℚ) / ((cat.signatures songId).length : ℚ)
        < MIN_STORED_VOTE_FRAC then ⟨songId, 0, 0, 0, 0⟩
  else ⟨songId, bestVote q (cat.signatures songId),
    (bestVote q (cat.signatures songId) : ℚ) / (q.length : ℚ),
    (bestVote q (cat.signatures songId) : ℚ) / ((cat.signatures songId).length : ℚ),
    ((bestVote q (cat.signatures songId) : ℚ) / (q.length : ℚ)) *
      ((bestVote q (cat.signatures songId) : ℚ) / ((cat.signatures songId).length : ℚ))⟩

/-- List `score_details`: one `scoreDetailFor` row per `song_id` in
`range(1, max_track_id + 1)`. -/
def scoreDetails (q : List HashEntry) (cat : Catalog) (maxId : ℕ) : List ScoreDetail :=
  (List.range' 1 maxId).map (scoreDetailFor q cat)

/-- List `valid_scores`: the rows of `score_details` with `votes > 0`. -/
def validScores (q : List HashEntry) (cat : Catalog) (maxId : ℕ) : List ScoreDetail :=
  (scoreDetails q cat maxId).filter (fun d => 0 < d.votes)

/-- Value `best_score`: running maximum of the scores of `valid_scores`,
starting from `0.0`. -/
def identifyBestScore (q : List HashEntry) (cat : Catalog) (maxId : ℕ) : ℚ :=
  ((validScores q cat maxId).map ScoreDetail.score).foldl max 0

/-- List `top_candidates`: the rows of `valid_scores` whose score equals
`best_score`. -/
def topCandidates (q : List HashEntry) (cat : Catalog) (maxId : ℕ) : List ScoreDetail :=
  (validScores q cat maxId).filter (fun d => d.score = identifyBestScore q cat maxId)

/-- Value `best_votes`: running maximum of the vote counts of
`top_candidates`, starting from `0`. -/
def identifyBestVotes (q : List HashEntry) (cat : Catalog) (maxId : ℕ) : ℕ :=
  ((topCandidates q cat maxId).map ScoreDetail.votes).foldl max 0

/-- Rows of `top_candidates` whose vote count equals `best_votes`; their
`song_id`s form `best_song_ids`. -/
def winningDetails (q : List HashEntry) (cat : Catalog) (maxId : ℕ) : List ScoreDetail :=
  (topCandidates q cat maxId).filter (fun d => d.votes = identifyBestVotes q cat maxId)

/-- Matcher `identify_from_hashes` from `orchestrator.py`: time-offset voting
over every track id up to `get_highest_track_id`, confidence gating, and
selection of the titles sharing the best `(score, votes)` pair. Every failure
case returns `[]`; the function never raises. -/
def identify_from_hashes (cat : Catalog) (snippetHashes : List HashEntry) : List String :=
  if snippetHashes = [] then []
  else
    match cat.maxTrackId with
    | none => []
    | some maxId =>
      if scoreDetails snippetHashes cat maxId = [] then []
      else if validScores snippetHashes cat maxId = [] then []
      else (winningDetails snippetHashes cat maxId).map (fun d => cat.titles d.songId)

/-- Confidence gates of the spec, stated from the spec's quantities for one
track: `v* ≥ 5`, `v*/Nq ≥ 0.006` and `v*/Ns ≥ 0.004`. -/
def trackPassesGates (q : List HashEntry) (cat : Catalog) (id : ℕ) : Prop :=
  MIN_ABSOLUTE_VOTES ≤ bestVote q (cat.signatures id) ∧
  MIN_SNIPPET_VOTE_FRAC ≤ (bestVote q (cat.signatures id) : ℚ) / (q.length : ℚ) ∧
  MIN_STORED_VOTE_FRAC ≤ (bestVote q (cat.signatures id) : ℚ) / ((cat.signatures id).length : ℚ)

/-- Score `(v*/Nq) * (v*/Ns)` of a candidate track, as the spec defines it. -/
def candidateScore (q : List HashEntry) (cat : Catalog) (id : ℕ) : ℚ :=
  ((bestVote q (cat.signatures id) : ℚ) / (q.length : ℚ)) *
    ((bestVote q (cat.signatures id) : ℚ) / ((cat.signatures id).length : ℚ))

/-- Decidable instance for the gate predicate, so witnesses can evaluate it. -/
instance (q : List HashEntry) (cat : Catalog) (id : ℕ) :
    Decidable (trackPassesGates q cat id) := by
  unfold trackPassesGates; infer_instance

/-- External numpy numeric kernels used by `_compute_manual_spectrogram`.
Their values are computed by the numpy library, not by code of this
repository, so the embedding takes them as parameters: `hamming n` models
`np.hamming(4096)[n]`, `dftMagnitude frame k` models
`np.abs(np.fft.fft(frame))[k]`, and `log1p` models `np.log1p`. -/
structure NumpyKernel where
  hamming : ℕ → ℚ
  dftMagnitude : List ℚ → ℕ → ℚ
  log1p : ℚ → ℚ

/-- Value `np.max(np.abs(l))` for a nonempty list of samples (running maximum
of the absolute values; the `0` start value is never the result on a nonempty
list since absolute values are nonnegative). -/
def maxAbs (l : List ℚ) : ℚ :=
  (l.map (fun x => |x|)).foldl max 0

/-- Model of `np.max` on one nonempty spectrogram column (the default `0` is
only returned on `[]`, which the caller skips beforehand). -/
def listMax (l : List ℚ) : ℚ :=
  match l with
  | [] => 0
  | x :: xs => xs.foldl max x

/-- Model of `np.linspace(a, b, n)` with its default inclusive endpoint:
`n` evenly spaced values starting at `a` with step `(b - a)/(n - 1)`. -/
def linspace (a b : ℚ) (n : ℕ) : List ℚ :=
  (List.range n).map (fun k : ℕ => a + (b - a) * (k : ℚ) / ((n : ℚ) - 1))

/-- Number of analysis windows `n_windows = (len(audio_data) - 4096) // 2048`.
For `L < 4096` the Python source raises while allocating
`np.zeros((2048, n_windows))` with a negative dimension; the embedding
truncates to `0` there, a case no claim touches. -/
def nWindows (L : ℕ) : ℕ :=
  (L - 4096) / 2048

/-- Result tuple of `_compute_manual_spectrogram`. The grid is stored as the
list of its time columns, so `powerMatrix[i]` models `power_matrix[:, i]`,
matching how both the source loop writing `spectrogram[:, i]` and the peak
extractor reading `power_matrix[:, time_idx]` traverse it. -/
structure Spectrogram where
  sampleRate : ℕ
  freqBins : List ℚ
  timeBins : List ℚ
  powerMatrix : List (List ℚ)

/-- Frame `audio_data[start:start + 4096] * window` for window index `i`,
after normalization. Positions past the signal end default to `0`; they are
never read for `i < nWindows L`. -/
def windowedFrame (np : NumpyKernel) (audioN : List ℚ) (i : ℕ) : List ℚ :=
  (List.range 4096).map (fun n => audioN.getD (i * 2048 + n) 0 * np.hamming n)

/-- Column `i` of the grid: `np.log1p(np.abs(np.fft.fft(frame))[:2048])`
(the source applies `log1p` to the whole matrix after the loop; pointwise the
value is the same). -/
def spectroColumn (np : NumpyKernel) (frame : List ℚ) : List ℚ :=
  (List.range 2048).map (fun k => np.log1p (np.dftMagnitude frame k))

/-- Model of `_compute_manual_spectrogram(audio_data, sample_rate)`: divide
every sample by `np.max(np.abs(audio_data))` — unconditionally, the source has
no emptiness or silence check — then build the windowed DFT grid and the two
axes `np.linspace(0, sample_rate / 2, 2048)` and
`np.arange(n_windows) * 2048 / sample_rate`. -/
def computeManualSpectrogram (np : NumpyKernel) (audioData : List ℚ)
    (sampleRate : ℕ) : Spectrogram :=
  let audioN := audioData.map (fun s => s / maxAbs audioData)
  let n := nWindows audioData.length
  { sampleRate := sampleRate
    freqBins := linspace 0 ((sampleRate : ℚ) / 2) 2048
    timeBins := (List.range n).map (fun i => ((i * 2048 : ℕ) : ℚ) / (sampleRate : ℚ))
    powerMatrix := (List.range n).map (fun i => spectroColumn np (windowedFrame np audioN i)) }

/-- Raw decoder output of `scipy.io.wavfile.read`: a mono sample list, or per
sample one row of channel values when the array is two-dimensional. -/
inductive AudioData : Type
  | mono (samples : List ℚ)
  | multi (samples : List (List ℚ))

/-- Stereo-to-mono conversion of `generate_spectrogram_from_wav`:
`np.mean(audio_data, axis=1)` when the array has more than one dimension. -/
def downmix : AudioData → List ℚ
  | AudioData.mono samples => samples
  | AudioData.multi samples =>
      samples.map (fun row => (row.foldl (fun a b => a + b) 0) / (row.length : ℚ))

/-- Model of Python's `str.endswith(suffix)`: a suffix test on the character
sequence of the string. -/
def strEndsWith (s suffix : String) : Bool :=
  suffix.data.isSuffixOf s.data

/-- Entry point `generate_spectrogram_from_wav(wav_path)`: reject paths not
ending in `".wav"` by returning `None`, otherwise read the file (the external
`wavfile.read`, a parameter here), down-mix, and compute the spectrogram. -/
def generate_spectrogram_from_wav (np : NumpyKernel)
    (readWav : String → ℕ × AudioData) (wavPath : String) : Option Spectrogram :=
  if !(strEndsWith wavPath ".wav") then none
  else
    let loaded := readWav wavPath
    some (computeManualSpectrogram np (downmix loaded.2) loaded.1)

/-- Peak tuple `(time_idx, freq_idx, magnitude)` appended by
`_extract_peak_constellation`. -/
structure Peak where
  time : ℕ
  freq : ℕ
  magnitude : ℚ
deriving DecidableEq

/-- Model of `np.argpartition(column, -k)[-k:]`: indices of the `k` largest
entries of `column`. numpy leaves the order of the selected block and the
tie-break among equal values unspecified; this embedding determinizes both by
a stable sort on descending value (ties at lower index first). Every property
proved below holds for any such selection. -/
def topKIndices (column : List ℚ) (k : ℕ) : List ℕ :=
  ((List.range column.length).mergeSort
    (fun i j => decide (column.getD j 0 ≤ column.getD i 0))).take k

/-- Peaks contributed by one column of the grid in
`_extract_peak_constellation`: skip silent columns (`if not np.any(column)`
and `if column_max <= 0`), select the `min(5, len(column))` largest bins, and
keep those at least `0.25 * column_max`. -/
def columnPeaks (timeIdx : ℕ) (column : List ℚ) : List Peak :=
  if column.all (fun x => x = 0) then []
  else if listMax column ≤ 0 then []
  else
    ((topKIndices column (min 5 column.length)).filter
        (fun i => ¬ (column.getD i 0 < listMax column * (25 / 100)))).map
      (fun i => ⟨timeIdx, i, column.getD i 0⟩)

/-- Comparison used to model `peaks.sort(key=lambda entry: entry[0])`:
ascending `time_idx`. -/
def peakTimeLE (p q : Peak) : Bool :=
  decide (p.time ≤ q.time)

/-- Model of `_extract_peak_constellation(power_matrix)`: collect the peaks of
every column and sort them by time (`peaks.sort(key=lambda entry: entry[0])`,
a stable ascending sort). -/
def extractPeakConstellation (grid : List (List ℚ)) : List Peak :=
  (((grid.enum).map (fun pr => columnPeaks pr.1 pr.2)).flatten).mergeSort peakTimeLE

/-- Hash entries produced by one anchor index in
`generate_constellation_hashes`: pair the anchor with the next `FAN_VALUE = 6`
peaks, stop at the end of the list (the monotone bound check models the
`break`), and skip pairs with `delta_time <= 0 or delta_time > 20`. -/
def anchorHashes (peaks : List Peak) (anchorIdx : ℕ) : List HashEntry :=
  let anchor := peaks.getD anchorIdx ⟨0, 0, 0⟩
  (List.range 6).filterMap (fun off =>
    let targetIdx := anchorIdx + off + 1
    if targetIdx < peaks.length then
      let target := peaks.getD targetIdx ⟨0, 0, 0⟩
      let deltaTime : ℤ := (target.time : ℤ) - (anchor.time : ℤ)
      if deltaTime ≤ 0 ∨ 20 < deltaTime then none
      else some ((anchor.freq, target.freq, deltaTime.toNat), anchor.time)
    else none)

/-- Hash stream of `generate_constellation_hashes` before deduplication: the
double loop over anchors and fan-out offsets, in emission order. -/
def rawHashes (peaks : List Peak) : List HashEntry :=
  ((List.range peaks.length).map (anchorHashes peaks)).flatten

/-- Model of `list(dict.fromkeys(hashes))`: drop every later duplicate,
keeping the first occurrence of each element in its original position. -/
def dedupFirst {α : Type} [DecidableEq α] : List α → List α
  | [] => []
  | a :: l => a :: dedupFirst (l.filter (fun b => b ≠ a))
termination_by l => l.length
decreasing_by
  simp only [List.length_cons]
  exact Nat.lt_succ_of_le (List.length_filter_le _ _)

/-- Hashing stage of `generate_constellation_hashes` applied to an already
extracted peak list (the spec's `hash_peaks`): the raw fan-out stream followed
by `list(dict.fromkeys(...))`. -/
def hashPeaks (peaks : List Peak) : List HashEntry :=
  dedupFirst (rawHashes peaks)

/-- Model of `generate_constellation_hashes(freq_bins, time_bins,
power_matrix)`: extract the peak constellation of the grid, then hash it
(the two axis arguments are unused by the source, as its docstring notes). -/
def generate_constellation_hashes (grid : List (List ℚ)) : List HashEntry :=
  hashPeaks (extractPeakConstellation grid)

/-- Trivial instantiation of the external numpy kernels, used to evaluate the
embedding at concrete inputs (no claim depends on the kernel values). -/
def kernel0 : NumpyKernel := ⟨fun _ => 0, fun _ _ => 0, fun _ => 0⟩

/-- Trivial instantiation of the external WAV reader. -/
def readWav0 : String → ℕ × AudioData := fun _ => (44100, AudioData.mono [])

/-- Catalog whose `music` table is empty (`get_highest_track_id` is `None`). -/
def emptyCatalog : Catalog := ⟨none, fun _ => [], fun _ => ""⟩

/-- One-entry query hash list. -/
def qOne : List HashEntry := [((0, 0, 1), 0)]

/-- Catalog with one track that has no stored fingerprints. -/
def noMatchCatalog : Catalog := ⟨some 1, fun _ => [], fun _ => "alpha"⟩

/-- Five stored rows all carrying the hash of `qOne` at anchor time `0`. -/
def storedFive : List (ℕ × HashTriple) := List.replicate 5 (0, (0, 0, 1))

/-- Catalog with one track whose stored rows all match `qOne` at offset 0. -/
def matchCatalog : Catalog := ⟨some 1, fun _ => storedFive, fun _ => "alpha"⟩

/-- Tiny concrete power grid (one column, two frequency bins). -/
def gridW : List (List ℚ) := [[1, 2]]

/-- Column of 2048 frequency rows with a single nonzero spike of height `v`
at bin `b`, used to build a concrete full-size grid. -/
def spikeColumn (b : ℕ) (v : ℚ) : List ℚ :=
  (List.range 2048).map (fun i : ℕ => if i = b then v else 0)

/-- Concrete two-column grid with 2048 rows: a spike of height 4 at bin 3 in
frame 0 and a spike of height 2 at bin 7 in frame 1. -/
def gridH : List (List ℚ) := [spikeColumn 3 4, spikeColumn 7 2]

theorem foldl_max_init_le {α : Type} [LinearOrder α] (l : List α) (a : α) :
    a ≤ l.foldl max a := by
  induction l generalizing a with
  | nil => exact le_refl a
  | cons b l ih => exact le_trans (le_max_left a b) (ih (max a b))

theorem le_foldl_max_of_mem {α : Type} [LinearOrder α] {l : List α} {x : α}
    (hx : x ∈ l) (a : α) : x ≤ l.foldl max a := by
  induction l generalizing a with
  | nil => cases hx
  | cons b l ih =>
    rcases List.mem_cons.mp hx with h | h
    · subst h
      exact le_trans (le_max_right a x) (foldl_max_init_le l (max a x))
    · exact ih h (max a b)

theorem foldl_max_eq_init_or_mem {α : Type} [LinearOrder α] (l : List α) (a : α) :
    l.foldl max a = a ∨ l.foldl max a ∈ l := by
  induction l generalizing a with
  | nil => exact Or.inl rfl
  | cons b l ih =>
    rcases ih (max a b) with h | h
    · rw [List.foldl_cons, h]
      rcases max_choice a b with h' | h'
      · exact Or.inl h'
      · exact Or.inr (by rw [h']; exact List.mem_cons_self b l)
    · exact Or.inr (List.mem_cons_of_mem b h)

theorem foldl_max_zero_replicate (n : ℕ) :
    (List.replicate n (0 : ℚ)).foldl max 0 = 0 := by
  induction n with
  | zero => rfl
  | succ n ih => rw [List.replicate_succ, List.foldl_cons, max_self]; exact ih

theorem maxAbs_replicate_zero (n : ℕ) : maxAbs (List.replicate n (0 : ℚ)) = 0 := by
  unfold maxAbs
  rw [List.map_replicate, abs_zero]
  exact foldl_max_zero_replicate n

theorem linspace_getD {n k : ℕ} (hk : k < n) (a b : ℚ) :
    (linspace a b n).getD k 0 = a + (b - a) * (k : ℚ) / ((n : ℚ) - 1) := by
  unfold linspace
  rw [List.getD_eq_getElem?_getD, List.getElem?_map, List.getElem?_range hk]
  rfl

set_option maxRecDepth 4000 in
theorem computeManualSpectrogram_freqBins (np : NumpyKernel) (audio : List ℚ)
    (sr : ℕ) : (computeManualSpectrogram np audio sr).freqBins
      = linspace 0 ((sr : ℚ) / 2) 2048 := rfl

theorem computeManualSpectrogram_timeBins (np : NumpyKernel) (audio : List ℚ)
    (sr : ℕ) : (computeManualSpectrogram np audio sr).timeBins
      = (List.range (nWindows audio.length)).map
          (fun i => ((i * 2048 : ℕ) : ℚ) / (sr : ℚ)) := rfl

theorem computeManualSpectrogram_powerMatrix (np : NumpyKernel) (audio : List ℚ)
    (sr : ℕ) : (computeManualSpectrogram np audio sr).powerMatrix
      = (List.range (nWindows audio.length)).map
          (fun i => spectroColumn np
            (windowedFrame np (audio.map (fun s => s / maxAbs audio)) i)) := rfl

theorem computeManualSpectrogram_timeBins_getD (np : NumpyKernel) (audio : List ℚ)
    (sr : ℕ) {i : ℕ} (hi : i < nWindows audio.length) :
    (computeManualSpectrogram np audio sr).timeBins.getD i 0
      = ((i * 2048 : ℕ) : ℚ) / (sr : ℚ) := by
  rw [computeManualSpectrogram_timeBins, List.getD_eq_getElem?_getD, List.getElem?_map,
    List.getElem?_range hi]
  rfl

set_option maxRecDepth 4000 in
/-- C2: on an all-zero signal (the spec's scenario S1: 22050 zero samples at
rate 44100) the source raises no `EmptySignal` error: `np.max(np.abs(...))`
is `0`, the normalization divides by it anyway, and a 2048 x 8 grid is
returned. The spec mandates failing with `EmptySignal` here, so the code
contradicts the spec's stated intent. -/
theorem silence_not_rejected (np : NumpyKernel) :
    maxAbs (List.replicate 22050 (0 : ℚ)) = 0 ∧
    ((computeManualSpectrogram np (List.replicate 22050 (0 : ℚ)) 44100).powerMatrix).length
      = 8 := by
  refine ⟨maxAbs_replicate_zero 22050, ?_⟩
  rw [computeManualSpectrogram_powerMatrix, List.length_map, List.length_range,
    List.length_replicate]
  rfl

/-- C7 (counterexample): the claim's frequency-axis formula
`freq_axis[k] = k * sample_rate / 4096` fails on the code at the concrete
input `k = 1`, `sample_rate = 44100`, signal of length 6144 (so `N = 1 ≥ 1`):
`np.linspace(0, sample_rate / 2, 2048)` includes its endpoint, giving
`22050 / 2047` where the claim demands `44100 / 4096`. -/
theorem freq_axis_claim_counterexample :
    1 ≤ nWindows (List.replicate 6144 (1 : ℚ)).length ∧
    (computeManualSpectrogram kernel0 (List.replicate 6144 (1 : ℚ)) 44100).freqBins.getD 1 0
      ≠ (1 : ℚ) * 44100 / 4096 := by
  constructor
  · rw [List.length_replicate]; norm_num [nWindows]
  · rw [computeManualSpectrogram_freqBins, linspace_getD (by norm_num)]
    norm_num

/-- C7 (amended): for every signal with at least one analysis window the code
returns `freq_axis[k] = k * (sample_rate / 2) / 2047` for `k < 2048` (the
inclusive-endpoint `np.linspace` grid, not the claim's `k * sample_rate / 4096`)
and `time_axis[i] = i * 2048 / sample_rate` for `i < N`, as claimed. -/
theorem spectrogram_axes (np : NumpyKernel) (audio : List ℚ) (sr : ℕ) (k i : ℕ)
    (hN : 1 ≤ nWindows audio.length) (hk : k < 2048) (hi : i < nWindows audio.length) :
    (computeManualSpectrogram np audio sr).freqBins.getD k 0
        = (k : ℚ) * ((sr : ℚ) / 2) / 2047 ∧
    (computeManualSpectrogram np audio sr).timeBins.getD i 0
        = (i : ℚ) * 2048 / (sr : ℚ) := by
  constructor
  · rw [computeManualSpectrogram_freqBins, linspace_getD hk]
    norm_num [mul_comm]
  · rw [computeManualSpectrogram_timeBins_getD np audio sr hi]
    push_cast
    ring

/-- C7 witness: the amended axis formulas evaluated at a concrete signal of
length 6144, `k = 1`, `i = 0`. -/
theorem spectrogram_axes_witness :
    (1 ≤ nWindows (List.replicate 6144 (1 : ℚ)).length ∧ 1 < 2048 ∧
      0 < nWindows (List.replicate 6144 (1 : ℚ)).length) ∧
    ((computeManualSpectrogram kernel0 (List.replicate 6144 (1 : ℚ)) 44100).freqBins.getD 1 0
        = (1 : ℚ) * ((44100 : ℚ) / 2) / 2047 ∧
      (computeManualSpectrogram kernel0 (List.replicate 6144 (1 : ℚ)) 44100).timeBins.getD 0 0
        = (0 : ℚ) * 2048 / (44100 : ℚ)) :=
  ⟨⟨by rw [List.length_replicate]; norm_num [nWindows], by norm_num,
      by rw [List.length_replicate]; norm_num [nWindows]⟩,
    by
      have h := spectrogram_axes kernel0 (List.replicate 6144 (1 : ℚ)) 44100 1 0
        (by rw [List.length_replicate]; norm_num [nWindows]) (by norm_num)
        (by rw [List.length_replicate]; norm_num [nWindows])
      exact_mod_cast h⟩

/-- C10: `generate_spectrogram_from_wav` returns `None` on every path that
does not end in `".wav"`, for every possible behaviour of the external file
reader (so in particular without depending on the file's contents). -/
theorem generate_spectrogram_from_wav_non_wav (np : NumpyKernel)
    (readWav : String → ℕ × AudioData) (path : String)
    (h : strEndsWith path ".wav" = false) :
    generate_spectrogram_from_wav np readWav path = none := by
  unfold generate_spectrogram_from_wav
  rw [h]
  rfl

/-- C10 witness: a concrete non-WAV path. -/
theorem generate_spectrogram_from_wav_non_wav_witness :
    (strEndsWith "snippet.mp3" ".wav" = false) ∧
    generate_spectrogram_from_wav kernel0 readWav0 "snippet.mp3" = none :=
  ⟨by decide, generate_spectrogram_from_wav_non_wav kernel0 readWav0 "snippet.mp3" (by decide)⟩

/-- C8: on an empty query hash list the matcher returns `[]` immediately; the
quantification over every catalog shows the store is never consulted, and the
embedding returns rather than raising. -/
theorem identify_empty_query (cat : Catalog) :
    identify_from_hashes cat [] = [] := by
  simp [identify_from_hashes]

/-- C9: with a non-empty query but no tracks in the database
(`get_highest_track_id` returns `None`), the matcher returns `[]` rather than
raising. -/
theorem identify_no_tracks (cat : Catalog) (q : List HashEntry)
    (hq : q ≠ []) (hm : cat.maxTrackId = none) :
    identify_from_hashes cat q = [] := by
  unfold identify_from_hashes
  rw [if_neg hq, hm]

/-- C9 witness: concrete non-empty query against the empty catalog. -/
theorem identify_no_tracks_witness :
    (qOne ≠ [] ∧ emptyCatalog.maxTrackId = none) ∧
    identify_from_hashes emptyCatalog qOne = [] :=
  ⟨⟨by decide, rfl⟩, identify_no_tracks emptyCatalog qOne (by decide) rfl⟩

theorem matchOffsets_nil_q (stored : List (ℕ × HashTriple)) :
    matchOffsets [] stored = [] := by
  unfold matchOffsets snippetTimes
  induction stored with
  | nil => rfl
  | cons s stored ih => simpa using ih

theorem bestVote_of_offsets_nil {q : List HashEntry} {stored : List (ℕ × HashTriple)}
    (h : matchOffsets q stored = []) : bestVote q stored = 0 := by
  unfold bestVote
  rw [h]
  rfl

theorem scoreDetailFor_songId (q : List HashEntry) (cat : Catalog) (id : ℕ) :
    (scoreDetailFor q cat id).songId = id := by
  unfold scoreDetailFor
  split_ifs <;> rfl

theorem scoreDetailFor_eq_of_passes {q : List HashEntry} {cat : Catalog} {id : ℕ}
    (hp : trackPassesGates q cat id) :
    scoreDetailFor q cat id =
      ⟨id, bestVote q (cat.signatures id),
        (bestVote q (cat.signatures id) : ℚ) / (q.length : ℚ),
        (bestVote q (cat.signatures id) : ℚ) / ((cat.signatures id).length : ℚ),
        candidateScore q cat id⟩ := by
  obtain ⟨h1, h2, h3⟩ := hp
  have hns : ¬ (cat.signatures id).length = 0 := by
    intro h0
    rw [h0] at h3
    norm_num [MIN_STORED_VOTE_FRAC] at h3
  have hoffs : ¬ matchOffsets q (cat.signatures id) = [] := by
    intro h0
    rw [bestVote_of_offsets_nil h0] at h1
    norm_num [MIN_ABSOLUTE_VOTES] at h1
  have hgate : ¬ (bestVote q (cat.signatures id) < MIN_ABSOLUTE_VOTES ∨
      (bestVote q (cat.signatures id) : ℚ) / (q.length : ℚ) < MIN_SNIPPET_VOTE_FRAC ∨
      (bestVote q (cat.signatures id) : ℚ) / ((cat.signatures id).length : ℚ)
        < MIN_STORED_VOTE_FRAC) := by
    push_neg
    exact ⟨h1, h2, h3⟩
  unfold scoreDetailFor
  rw [if_neg hns, if_neg hoffs, if_neg hgate]
  rfl

theorem scoreDetailFor_passes_of_votes_pos {q : List HashEntry} {cat : Catalog} {id : ℕ}
    (h : 0 < (scoreDetailFor q cat id).votes) : trackPassesGates q cat id := by
  unfold scoreDetailFor at h
  split_ifs at h with h1 h2 h3
  · exact absurd h (by simp)
  · exact absurd h (by simp)
  · exact absurd h (by simp)
  · push_neg at h3
    exact ⟨h3.1, h3.2.1, h3.2.2⟩

theorem scoreDetailFor_score_of_passes {q : List HashEntry} {cat : Catalog} {id : ℕ}
    (hp : trackPassesGates q cat id) :
    (scoreDetailFor q cat id).score = candidateScore q cat id := by
  rw [scoreDetailFor_eq_of_passes hp]

theorem scoreDetailFor_votes_of_passes {q : List HashEntry} {cat : Catalog} {id : ℕ}
    (hp : trackPassesGates q cat id) :
    (scoreDetailFor q cat id).votes = bestVote q (cat.signatures id) := by
  rw [scoreDetailFor_eq_of_passes hp]

theorem bestVote_pos_of_passes {q : List HashEntry} {cat : Catalog} {id : ℕ}
    (hp : trackPassesGates q cat id) : 0 < bestVote q (cat.signatures id) := by
  have h1 := hp.1
  norm_num [MIN_ABSOLUTE_VOTES] at h1
  omega

theorem candidateScore_pos {q : List HashEntry} {cat : Catalog} {id : ℕ}
    (hp : trackPassesGates q cat id) : 0 < candidateScore q cat id := by
  obtain ⟨h1, h2, h3⟩ := hp
  have ha : (0 : ℚ) < (bestVote q (cat.signatures id) : ℚ) / (q.length : ℚ) :=
    lt_of_lt_of_le (by norm_num [MIN_SNIPPET_VOTE_FRAC]) h2
  have hb : (0 : ℚ) < (bestVote q (cat.signatures id) : ℚ) / ((cat.signatures id).length : ℚ) :=
    lt_of_lt_of_le (by norm_num [MIN_STORED_VOTE_FRAC]) h3
  exact mul_pos ha hb

theorem mem_validScores {q : List HashEntry} {cat : Catalog} {m : ℕ} {d : ScoreDetail} :
    d ∈ validScores q cat m ↔
      ∃ i, 1 ≤ i ∧ i ≤ m ∧ trackPassesGates q cat i ∧ d = scoreDetailFor q cat i := by
  constructor
  · intro hd
    obtain ⟨hds, hv⟩ := List.mem_filter.mp hd
    obtain ⟨i, hi, rfl⟩ := List.mem_map.mp hds
    obtain ⟨k, hk, hik⟩ := List.mem_range'.mp hi
    have hv' : 0 < (scoreDetailFor q cat i).votes := by simpa using hv
    exact ⟨i, by omega, by omega, scoreDetailFor_passes_of_votes_pos hv', rfl⟩
  · rintro ⟨i, h1, h2, hp, rfl⟩
    refine List.mem_filter.mpr ⟨List.mem_map.mpr ⟨i, ?_, rfl⟩, ?_⟩
    · exact List.mem_range'.mpr ⟨i - 1, by omega, by omega⟩
    · have := bestVote_pos_of_passes hp
      simp only [scoreDetailFor_votes_of_passes hp, decide_eq_true_eq]
      exact this

/-- C1: a title can appear in the matcher's output only for a track whose
peak offset-histogram vote passes all three confidence gates (`v* ≥ 5`,
`v*/Nq ≥ 0.006`, `v*/Ns ≥ 0.004`), and when no track at all passes the gates
the matcher returns the empty list (it is a total function, so no error is
raised on the no-match path). -/
theorem identify_gate_necessary (cat : Catalog) (q : List HashEntry) :
    (∀ title ∈ identify_from_hashes cat q,
        ∃ id, cat.titles id = title ∧ trackPassesGates q cat id) ∧
    ((∀ id, ¬ trackPassesGates q cat id) → identify_from_hashes cat q = []) := by
  constructor
  · intro title ht
    unfold identify_from_hashes at ht
    by_cases hq : q = []
    · rw [if_pos hq] at ht; cases ht
    rw [if_neg hq] at ht
    cases hmt : cat.maxTrackId with
    | none =>
      rw [hmt] at ht
      exact absurd ht (List.not_mem_nil title)
    | some m =>
      rw [hmt] at ht
      replace ht : title ∈
          (if scoreDetails q cat m = [] then []
           else if validScores q cat m = [] then []
           else (winningDetails q cat m).map (fun d => cat.titles d.songId)) := ht
      split_ifs at ht with h1 h2
      · cases ht
      · cases ht
      obtain ⟨d, hd, hdt⟩ := List.mem_map.mp ht
      have hdv : d ∈ validScores q cat m := by
        unfold winningDetails topCandidates at hd
        exact (List.mem_filter.mp (List.mem_filter.mp hd).1).1
      obtain ⟨i, hi1, him, hp, rfl⟩ := mem_validScores.mp hdv
      refine ⟨i, ?_, hp⟩
      rw [scoreDetailFor_songId] at hdt
      exact hdt
  · intro hall
    unfold identify_from_hashes
    by_cases hq : q = []
    · rw [if_pos hq]
    rw [if_neg hq]
    cases hmt : cat.maxTrackId with
    | none => rfl
    | some m =>
      show (if scoreDetails q cat m = [] then []
        else if validScores q cat m = [] then []
        else (winningDetails q cat m).map (fun d => cat.titles d.songId)) = []
      have hv : validScores q cat m = [] := by
        rcases h : validScores q cat m with _ | ⟨d, ds⟩
        · rfl
        · exfalso
          have hd : d ∈ validScores q cat m := by rw [h]; exact List.mem_cons_self d ds
          obtain ⟨i, hi1, him, hp, rfl⟩ := mem_validScores.mp hd
          exact hall i hp
      rw [hv]
      simp

/-- C1 witness: concrete no-pass instance (one track, no stored hashes); the
gate hypothesis is discharged and the matcher returns the empty list. -/
theorem identify_gate_necessary_witness :
    identify_from_hashes noMatchCatalog qOne = [] := by
  refine (identify_gate_necessary noMatchCatalog qOne).2 ?_
  intro id h
  have h1 := h.1
  have h0 : bestVote qOne (noMatchCatalog.signatures id) = 0 := by
    exact bestVote_of_offsets_nil rfl
  rw [h0] at h1
  norm_num [MIN_ABSOLUTE_VOTES] at h1

theorem mem_topCandidates {q : List HashEntry} {cat : Catalog} {m : ℕ} {d : ScoreDetail} :
    d ∈ topCandidates q cat m ↔
      d ∈ validScores q cat m ∧ d.score = identifyBestScore q cat m := by
  rw [topCandidates, List.mem_filter]
  simp only [decide_eq_true_eq]

theorem mem_winningDetails {q : List HashEntry} {cat : Catalog} {m : ℕ} {d : ScoreDetail} :
    d ∈ winningDetails q cat m ↔
      d ∈ topCandidates q cat m ∧ d.votes = identifyBestVotes q cat m := by
  rw [winningDetails, List.mem_filter]
  simp only [decide_eq_true_eq]

/-- C3: when at least one track among the scanned ids passes the confidence
gates, the returned titles are exactly the titles of the passing candidates
whose pair `(score, v*)` is maximal in the lexicographic order with `score`
compared first and `v*` breaking ties, both descending; every co-winner of
that maximal pair is returned. -/
theorem identify_returns_top_pairs (cat : Catalog) (q : List HashEntry) (m : ℕ)
    (hm : cat.maxTrackId = some m)
    (hpass : ∃ i, 1 ≤ i ∧ i ≤ m ∧ trackPassesGates q cat i) (title : String) :
    title ∈ identify_from_hashes cat q ↔
      ∃ i, 1 ≤ i ∧ i ≤ m ∧ trackPassesGates q cat i ∧
        (∀ j, 1 ≤ j → j ≤ m → trackPassesGates q cat j →
          candidateScore q cat j < candidateScore q cat i ∨
            (candidateScore q cat j = candidateScore q cat i ∧
              bestVote q (cat.signatures j) ≤ bestVote q (cat.signatures i))) ∧
        cat.titles i = title := by
  obtain ⟨i₀, hi₀1, hi₀m, hp₀⟩ := hpass
  have hq : q ≠ [] := by
    intro hqe
    have h5 := hp₀.1
    rw [hqe, bestVote_of_offsets_nil (matchOffsets_nil_q _)] at h5
    norm_num [MIN_ABSOLUTE_VOTES] at h5
  have hd₀ : scoreDetailFor q cat i₀ ∈ validScores q cat m :=
    mem_validScores.mpr ⟨i₀, hi₀1, hi₀m, hp₀, rfl⟩
  have hvne : validScores q cat m ≠ [] := List.ne_nil_of_mem hd₀
  have hsne : scoreDetails q cat m ≠ [] := by
    intro h0
    apply hvne
    rw [validScores, h0]
    rfl
  have hide : identify_from_hashes cat q
      = (winningDetails q cat m).map (fun d => cat.titles d.songId) := by
    unfold identify_from_hashes
    rw [if_neg hq, hm]
    show (if scoreDetails q cat m = [] then []
      else if validScores q cat m = [] then []
      else (winningDetails q cat m).map (fun d => cat.titles d.songId)) = _
    rw [if_neg hsne, if_neg hvne]
  have hub : ∀ j, 1 ≤ j → j ≤ m → trackPassesGates q cat j →
      candidateScore q cat j ≤ identifyBestScore q cat m := by
    intro j h1 h2 hp
    have hdj : scoreDetailFor q cat j ∈ validScores q cat m :=
      mem_validScores.mpr ⟨j, h1, h2, hp, rfl⟩
    have hmem : (scoreDetailFor q cat j).score ∈ (validScores q cat m).map ScoreDetail.score :=
      List.mem_map_of_mem _ hdj
    have hle := le_foldl_max_of_mem hmem 0
    rwa [scoreDetailFor_score_of_passes hp] at hle
  have hatt : ∃ i, 1 ≤ i ∧ i ≤ m ∧ trackPassesGates q cat i ∧
      candidateScore q cat i = identifyBestScore q cat m := by
    rcases foldl_max_eq_init_or_mem ((validScores q cat m).map ScoreDetail.score) 0 with h | h
    · exfalso
      have hle := hub i₀ hi₀1 hi₀m hp₀
      have hpos := candidateScore_pos hp₀
      have hz : identifyBestScore q cat m = 0 := h
      rw [hz] at hle
      linarith
    · obtain ⟨d, hd, hds⟩ := List.mem_map.mp h
      obtain ⟨i, h1, h2, hp, rfl⟩ := mem_validScores.mp hd
      refine ⟨i, h1, h2, hp, ?_⟩
      rw [← scoreDetailFor_score_of_passes hp]
      exact hds
  have hubv : ∀ j, 1 ≤ j → j ≤ m → trackPassesGates q cat j →
      candidateScore q cat j = identifyBestScore q cat m →
      bestVote q (cat.signatures j) ≤ identifyBestVotes q cat m := by
    intro j h1 h2 hp hs
    have hdj : scoreDetailFor q cat j ∈ topCandidates q cat m :=
      mem_topCandidates.mpr ⟨mem_validScores.mpr ⟨j, h1, h2, hp, rfl⟩,
        by rw [scoreDetailFor_score_of_passes hp]; exact hs⟩
    have hmem : (scoreDetailFor q cat j).votes ∈ (topCandidates q cat m).map ScoreDetail.votes :=
      List.mem_map_of_mem _ hdj
    have hle := le_foldl_max_of_mem hmem 0
    rwa [scoreDetailFor_votes_of_passes hp] at hle
  have hattv : ∃ i, 1 ≤ i ∧ i ≤ m ∧ trackPassesGates q cat i ∧
      candidateScore q cat i = identifyBestScore q cat m ∧
      bestVote q (cat.signatures i) = identifyBestVotes q cat m := by
    rcases foldl_max_eq_init_or_mem ((topCandidates q cat m).map ScoreDetail.votes) 0 with h | h
    · exfalso
      obtain ⟨i₁, h1, h2, hp, hs⟩ := hatt
      have hle := hubv i₁ h1 h2 hp hs
      have hz : identifyBestVotes q cat m = 0 := h
      have hpos := bestVote_pos_of_passes hp
      omega
    · obtain ⟨d, hd, hds⟩ := List.mem_map.mp h
      obtain ⟨hdval, hdscore⟩ := mem_topCandidates.mp hd
      obtain ⟨i, h1, h2, hp, rfl⟩ := mem_validScores.mp hdval
      refine ⟨i, h1, h2, hp, ?_, ?_⟩
      · rw [← scoreDetailFor_score_of_passes hp]
        exact hdscore
      · rw [← scoreDetailFor_votes_of_passes hp]
        exact hds
  rw [hide]
  constructor
  · intro ht
    obtain ⟨d, hd, hdt⟩ := List.mem_map.mp ht
    obtain ⟨hdtop, hdvotes⟩ := mem_winningDetails.mp hd
    obtain ⟨hdval, hdscore⟩ := mem_topCandidates.mp hdtop
    obtain ⟨i, h1, h2, hp, rfl⟩ := mem_validScores.mp hdval
    rw [scoreDetailFor_songId] at hdt
    refine ⟨i, h1, h2, hp, ?_, hdt⟩
    intro j hj1 hj2 hpj
    have hsj := hub j hj1 hj2 hpj
    have hsi : candidateScore q cat i = identifyBestScore q cat m := by
      rw [← scoreDetailFor_score_of_passes hp]
      exact hdscore
    rcases lt_or_eq_of_le (hsi ▸ hsj) with hlt | heq
    · exact Or.inl hlt
    · refine Or.inr ⟨heq, ?_⟩
      have hvle := hubv j hj1 hj2 hpj (heq.trans hsi)
      have hvi : bestVote q (cat.signatures i) = identifyBestVotes q cat m := by
        rw [← scoreDetailFor_votes_of_passes hp]
        exact hdvotes
      omega
  · rintro ⟨i, h1, h2, hp, hlex, rfl⟩
    have hsi : candidateScore q cat i = identifyBestScore q cat m := by
      obtain ⟨i', h1', h2', hp', hs'⟩ := hatt
      have hle := hub i h1 h2 hp
      rcases hlex i' h1' h2' hp' with hlt | ⟨heq, _⟩
      · linarith [hs' ▸ hlt]
      · linarith [heq ▸ hs']
    have hvi : bestVote q (cat.signatures i) = identifyBestVotes q cat m := by
      obtain ⟨i₁, h1', h2', hp', hs', hv'⟩ := hattv
      have hle := hubv i h1 h2 hp hsi
      rcases hlex i₁ h1' h2' hp' with hlt | ⟨heq, hvle⟩
      · exfalso
        rw [hs', ← hsi] at hlt
        exact lt_irrefl _ hlt
      · omega
    refine List.mem_map.mpr ⟨scoreDetailFor q cat i, ?_, by rw [scoreDetailFor_songId]⟩
    refine mem_winningDetails.mpr ⟨mem_topCandidates.mpr
      ⟨mem_validScores.mpr ⟨i, h1, h2, hp, rfl⟩, ?_⟩, ?_⟩
    · rw [scoreDetailFor_score_of_passes hp]
      exact hsi
    · rw [scoreDetailFor_votes_of_passes hp]
      exact hvi

/-- C3 witness: one-track catalog whose stored rows all match the concrete
query at offset 0; the track passes the gates and its title is returned. -/
theorem identify_returns_top_pairs_witness :
    "alpha" ∈ identify_from_hashes matchCatalog qOne := by
  have hbv : bestVote qOne (matchCatalog.signatures 1) = 5 := by decide
  have hp : trackPassesGates qOne matchCatalog 1 := by
    refine ⟨?_, ?_, ?_⟩
    · rw [hbv]
      norm_num [MIN_ABSOLUTE_VOTES]
    · rw [hbv, show qOne.length = 1 from rfl]
      norm_num [MIN_SNIPPET_VOTE_FRAC]
    · rw [hbv, show (matchCatalog.signatures 1).length = 5 from rfl]
      norm_num [MIN_STORED_VOTE_FRAC]
  have h := identify_returns_top_pairs matchCatalog qOne 1 rfl
    ⟨1, le_rfl, le_rfl, hp⟩ "alpha"
  refine h.mpr ⟨1, le_rfl, le_rfl, hp, ?_, rfl⟩
  intro j h1 h2 hpj
  have hj : j = 1 := le_antisymm h2 h1
  subst hj
  exact Or.inr ⟨rfl, le_rfl⟩

theorem dedupFirst_sublist {α : Type} [DecidableEq α] (l : List α) :
    (dedupFirst l).Sublist l := by
  induction l using dedupFirst.induct with
  | case1 => simp [dedupFirst]
  | case2 a l ih =>
    rw [dedupFirst]
    exact List.Sublist.cons₂ a (ih.trans (List.filter_sublist l))

theorem mem_dedupFirst {α : Type} [DecidableEq α] {x : α} {l : List α} :
    x ∈ dedupFirst l ↔ x ∈ l := by
  induction l using dedupFirst.induct with
  | case1 => simp [dedupFirst]
  | case2 a l ih =>
    rw [dedupFirst]
    by_cases hxa : x = a
    · subst hxa; simp
    · simp only [List.mem_cons, ih, List.mem_filter, decide_eq_true_eq]
      simp [hxa]

theorem nodup_dedupFirst {α : Type} [DecidableEq α] (l : List α) :
    (dedupFirst l).Nodup := by
  induction l using dedupFirst.induct with
  | case1 => simp [dedupFirst]
  | case2 a l ih =>
    rw [dedupFirst, List.nodup_cons]
    refine ⟨?_, ih⟩
    intro hmem
    have := mem_dedupFirst.mp hmem
    simp at this

theorem dedupFirst_eq_self_of_nodup {α : Type} [DecidableEq α] {l : List α}
    (h : l.Nodup) : dedupFirst l = l := by
  induction l using dedupFirst.induct with
  | case1 => rw [dedupFirst]
  | case2 a l ih =>
    rw [List.nodup_cons] at h
    have hfil : l.filter (fun b => b ≠ a) = l := by
      apply List.filter_eq_self.mpr
      intro b hb
      simp only [decide_eq_true_eq]
      intro hba
      exact h.1 (hba ▸ hb)
    rw [hfil] at ih
    rw [dedupFirst, hfil, ih h.2]

theorem topKIndices_length_le (column : List ℚ) (k : ℕ) :
    (topKIndices column k).length ≤ k := by
  unfold topKIndices
  rw [List.length_take]
  exact min_le_left _ _

theorem mem_topKIndices_lt {column : List ℚ} {k i : ℕ}
    (h : i ∈ topKIndices column k) : i < column.length := by
  unfold topKIndices at h
  exact List.mem_range.mp (List.mem_mergeSort.mp (List.mem_of_mem_take h))

theorem mem_columnPeaks_elim {t : ℕ} {col : List ℚ} {p : Peak}
    (hp : p ∈ columnPeaks t col) :
    p.time = t ∧ p.freq < col.length ∧ listMax col * (25 / 100) ≤ p.magnitude := by
  unfold columnPeaks at hp
  split_ifs at hp with h1 h2
  · cases hp
  · cases hp
  · obtain ⟨i, hi, rfl⟩ := List.mem_map.mp hp
    obtain ⟨hitop, hige⟩ := List.mem_filter.mp hi
    refine ⟨rfl, mem_topKIndices_lt hitop, ?_⟩
    simp only [decide_eq_true_eq] at hige
    exact not_lt.mp hige

theorem columnPeaks_length_le (t : ℕ) (col : List ℚ) :
    (columnPeaks t col).length ≤ 5 := by
  unfold columnPeaks
  split_ifs with h1 h2
  · simp
  · simp
  · rw [List.length_map]
    calc (((topKIndices col (min 5 col.length)).filter
            (fun i => ¬ (col.getD i 0 < listMax col * (25 / 100))))).length
        ≤ (topKIndices col (min 5 col.length)).length := List.length_filter_le _ _
      _ ≤ min 5 col.length := topKIndices_length_le _ _
      _ ≤ 5 := min_le_left _ _

theorem mem_extractPeakConstellation {grid : List (List ℚ)} {p : Peak} :
    p ∈ extractPeakConstellation grid ↔
      ∃ pr ∈ grid.enum, p ∈ columnPeaks pr.1 pr.2 := by
  unfold extractPeakConstellation
  rw [List.mem_mergeSort, List.mem_flatten]
  constructor
  · rintro ⟨l, hl, hpl⟩
    obtain ⟨pr, hpr, rfl⟩ := List.mem_map.mp hl
    exact ⟨pr, hpr, hpl⟩
  · rintro ⟨pr, hpr, hp⟩
    exact ⟨columnPeaks pr.1 pr.2, List.mem_map_of_mem _ hpr, hp⟩

theorem flatten_enumFrom_time_le (cols : List (List ℚ)) (n : ℕ) :
    ∀ p ∈ ((List.enumFrom n cols).map (fun pr => columnPeaks pr.1 pr.2)).flatten,
      n ≤ p.time := by
  induction cols generalizing n with
  | nil => intro p hp; simp at hp
  | cons c cols ih =>
    intro p hp
    rw [List.enumFrom_cons, List.map_cons, List.flatten_cons] at hp
    rcases List.mem_append.mp hp with h | h
    · rw [(mem_columnPeaks_elim h).1]
    · exact Nat.le_of_succ_le (ih (n + 1) p h)

theorem countP_time_le (cols : List (List ℚ)) (n t : ℕ) :
    (((List.enumFrom n cols).map (fun pr => columnPeaks pr.1 pr.2)).flatten).countP
        (fun p => p.time = t) ≤ 5 := by
  induction cols generalizing n with
  | nil => simp
  | cons c cols ih =>
    rw [List.enumFrom_cons, List.map_cons, List.flatten_cons, List.countP_append]
    dsimp only
    by_cases ht : t = n
    · subst ht
      have h1 : (columnPeaks t c).countP (fun p => p.time = t) ≤ 5 :=
        le_trans (List.countP_le_length _) (columnPeaks_length_le t c)
      have h2 : (((List.enumFrom (t + 1) cols).map
          (fun pr => columnPeaks pr.1 pr.2)).flatten).countP (fun p => p.time = t) = 0 := by
        rw [List.countP_eq_zero]
        intro p hp
        have := flatten_enumFrom_time_le cols (t + 1) p hp
        simp only [decide_eq_true_eq]
        omega
      omega
    · have h1 : (columnPeaks n c).countP (fun p => p.time = t) = 0 := by
        rw [List.countP_eq_zero]
        intro p hp
        have := (mem_columnPeaks_elim hp).1
        simp only [decide_eq_true_eq]
        omega
      have h2 := ih (n + 1)
      omega

/-- C4: every peak of the extractor has magnitude at least `0.25` times the
maximum of its own time column, each column contributes at most 5 peaks, and
the peak list is sorted in ascending `time_frame` order. -/
theorem peak_invariants (grid : List (List ℚ))
    (hpos : ∀ c ∈ grid, ∀ x ∈ c, 0 ≤ x) :
    (∀ p ∈ extractPeakConstellation grid,
        listMax (grid.getD p.time []) * (25 / 100) ≤ p.magnitude) ∧
    (∀ t, (extractPeakConstellation grid).countP (fun p => p.time = t) ≤ 5) ∧
    (extractPeakConstellation grid).Pairwise (fun p q => p.time ≤ q.time) := by
  refine ⟨?_, ?_, ?_⟩
  · intro p hp
    obtain ⟨pr, hpr, hpc⟩ := mem_extractPeakConstellation.mp hp
    obtain ⟨i, col⟩ := pr
    obtain ⟨-, hilen, hcol⟩ :=
      List.mem_enumFrom (show (i, col) ∈ List.enumFrom 0 grid from hpr)
    obtain ⟨htime, hfreq, hmag⟩ := mem_columnPeaks_elim hpc
    rw [htime]
    have hgd : grid.getD i [] = col := by
      rw [List.getD_eq_getElem grid [] (by simpa using hilen), hcol]
      simp
    rw [hgd]
    exact hmag
  · intro t
    unfold extractPeakConstellation
    rw [List.Perm.countP_eq _ (List.mergeSort_perm _ _)]
    exact countP_time_le grid 0 t
  · unfold extractPeakConstellation
    have htrans : ∀ a b c : Peak, peakTimeLE a b = true → peakTimeLE b c = true →
        peakTimeLE a c = true := by
      intro a b c hab hbc
      simp only [peakTimeLE, decide_eq_true_eq] at hab hbc ⊢
      omega
    have htotal : ∀ a b : Peak, (peakTimeLE a b || peakTimeLE b a) = true := by
      intro a b
      simp only [peakTimeLE, Bool.or_eq_true, decide_eq_true_eq]
      omega
    have hs := List.sorted_mergeSort htrans htotal
      (((grid.enum).map (fun pr => columnPeaks pr.1 pr.2)).flatten)
    exact hs.imp (fun h => by simpa [peakTimeLE] using h)

/-- C4 witness: the invariants evaluated at a concrete one-column grid with
nonnegative entries. -/
theorem peak_invariants_witness :
    (∀ c ∈ gridW, ∀ x ∈ c, 0 ≤ x) ∧
    ((∀ p ∈ extractPeakConstellation gridW,
        listMax (gridW.getD p.time []) * (25 / 100) ≤ p.magnitude) ∧
      (∀ t, (extractPeakConstellation gridW).countP (fun p => p.time = t) ≤ 5) ∧
      (extractPeakConstellation gridW).Pairwise (fun p q => p.time ≤ q.time)) :=
  ⟨by decide, peak_invariants gridW (by decide)⟩

theorem getD_mem_of_lt {α : Type} (l : List α) (d : α) {n : ℕ} (h : n < l.length) :
    l.getD n d ∈ l := by
  rw [List.getD_eq_getElem l d h]
  exact List.getElem_mem h

theorem extract_freq_lt {grid : List (List ℚ)}
    (hrows : ∀ c ∈ grid, c.length = 2048) :
    ∀ p ∈ extractPeakConstellation grid, p.freq < 2048 := by
  intro p hp
  obtain ⟨pr, hpr, hpc⟩ := mem_extractPeakConstellation.mp hp
  obtain ⟨i, col⟩ := pr
  have hcolmem : col ∈ grid := by
    obtain ⟨-, hilen, hcol⟩ :=
      List.mem_enumFrom (show (i, col) ∈ List.enumFrom 0 grid from hpr)
    rw [hcol]
    exact List.getElem_mem _
  have hlt := (mem_columnPeaks_elim hpc).2.1
  rwa [hrows col hcolmem] at hlt

theorem mem_anchorHashes_elim {peaks : List Peak} {a : ℕ} {e : HashEntry}
    (ha : a < peaks.length) (he : e ∈ anchorHashes peaks a) :
    ∃ target ∈ peaks, ∃ anchor ∈ peaks,
      e = ((anchor.freq, target.freq,
            ((target.time : ℤ) - (anchor.time : ℤ)).toNat), anchor.time) ∧
      0 < (target.time : ℤ) - (anchor.time : ℤ) ∧
      (target.time : ℤ) - (anchor.time : ℤ) ≤ 20 := by
  unfold anchorHashes at he
  obtain ⟨off, hoff, hfe⟩ := List.mem_filterMap.mp he
  dsimp only at hfe
  split_ifs at hfe with h1 h2
  · push_neg at h2
    cases hfe
    exact ⟨peaks.getD (a + off + 1) ⟨0, 0, 0⟩, getD_mem_of_lt _ _ h1,
      peaks.getD a ⟨0, 0, 0⟩, getD_mem_of_lt _ _ ha, rfl, h2.1, h2.2⟩

/-- C5: with a `2048`-row power grid, every hash entry the constellation
hasher produces from the extracted (time-sorted) peak list has
`0 < delta_time ≤ 20` and both frequency-bin indices in `[0, 2048)` (the
indices are naturals, so the lower bound `0 ≤` is inherent in the type). -/
theorem hash_bounds (grid : List (List ℚ))
    (hrows : ∀ c ∈ grid, c.length = 2048) :
    ∀ e ∈ generate_constellation_hashes grid,
      0 < e.1.2.2 ∧ e.1.2.2 ≤ 20 ∧ e.1.1 < 2048 ∧ e.1.2.1 < 2048 := by
  intro e he
  have hraw : e ∈ rawHashes (extractPeakConstellation grid) := by
    unfold generate_constellation_hashes hashPeaks at he
    exact mem_dedupFirst.mp he
  unfold rawHashes at hraw
  rw [List.mem_flatten] at hraw
  obtain ⟨l, hl, hel⟩ := hraw
  obtain ⟨a, hamem, rfl⟩ := List.mem_map.mp hl
  have ha : a < (extractPeakConstellation grid).length := List.mem_range.mp hamem
  obtain ⟨target, htmem, anchor, hamem', heq, hdpos, hdle⟩ := mem_anchorHashes_elim ha hel
  subst heq
  dsimp only
  refine ⟨by omega, by omega, ?_, ?_⟩
  · exact extract_freq_lt hrows anchor hamem'
  · exact extract_freq_lt hrows target htmem

theorem spikeColumn_length (b : ℕ) (v : ℚ) : (spikeColumn b v).length = 2048 := by
  unfold spikeColumn
  rw [List.length_map, List.length_range]

theorem spikeColumn_getD {b : ℕ} (v : ℚ) (i : ℕ) (hbv : b < 2048) :
    (spikeColumn b v).getD i 0 = if i = b then v else 0 := by
  unfold spikeColumn
  rcases lt_or_ge i 2048 with h | h
  · rw [List.getD_eq_getElem?_getD, List.getElem?_map, List.getElem?_range h]
    rfl
  · rw [List.getD_eq_getElem?_getD, List.getElem?_map,
      List.getElem?_eq_none (by simpa using h), if_neg (by omega)]
    rfl

theorem le_listMax_of_mem {l : List ℚ} {x : ℚ} (hx : x ∈ l) : x ≤ listMax l := by
  cases l with
  | nil => cases hx
  | cons y ys =>
    show x ≤ ys.foldl max y
    rcases List.mem_cons.mp hx with h | h
    · subst h
      exact foldl_max_init_le ys x
    · exact le_foldl_max_of_mem h y

theorem listMax_mem_of_ne_nil {l : List ℚ} (h : l ≠ []) : listMax l ∈ l := by
  cases l with
  | nil => exact absurd rfl h
  | cons y ys =>
    show ys.foldl max y ∈ y :: ys
    rcases foldl_max_eq_init_or_mem ys y with h' | h'
    · rw [h']
      exact List.mem_cons_self y ys
    · exact List.mem_cons_of_mem y h'

theorem columnPeaks_single_spike (t b : ℕ) (v : ℚ) (col : List ℚ)
    (hb : b < col.length) (hlen : 5 ≤ col.length) (hv : 0 < v)
    (hget : ∀ i : ℕ, col.getD i 0 = if i = b then v else 0) :
    columnPeaks t col = [⟨t, b, v⟩] := by
  have helem : ∀ x ∈ col, x = v ∨ x = 0 := by
    intro x hx
    obtain ⟨i, hi, hix⟩ := List.getElem_of_mem hx
    have hgi := hget i
    rw [List.getD_eq_getElem col 0 hi, hix] at hgi
    by_cases hib : i = b
    · rw [if_pos hib] at hgi
      exact Or.inl hgi
    · rw [if_neg hib] at hgi
      exact Or.inr hgi
  have hvmem : v ∈ col := by
    have hgb := hget b
    rw [if_pos rfl] at hgb
    rw [← hgb]
    exact getD_mem_of_lt col 0 hb
  have hmax : listMax col = v := by
    have h1 : v ≤ listMax col := le_listMax_of_mem hvmem
    have h2 : listMax col ∈ col := listMax_mem_of_ne_nil (by
      intro h0
      rw [h0] at hb
      simp at hb)
    rcases helem _ h2 with h | h
    · exact h
    · exact absurd (h ▸ h1) (not_le.mpr hv)
  have hall : ¬ (col.all (fun x => x = 0) = true) := by
    rw [List.all_eq_true]
    intro hforall
    have hz := hforall v hvmem
    simp only [decide_eq_true_eq] at hz
    exact absurd hz (ne_of_gt hv)
  have hpos : ¬ (listMax col ≤ 0) := by
    rw [hmax]
    exact not_le.mpr hv
  have htrans : ∀ a b' c : ℕ, (decide (col.getD b' 0 ≤ col.getD a 0)) = true →
      (decide (col.getD c 0 ≤ col.getD b' 0)) = true →
      (decide (col.getD c 0 ≤ col.getD a 0)) = true := by
    intro a b' c hab hbc
    simp only [decide_eq_true_eq] at hab hbc ⊢
    exact le_trans hbc hab
  have htotal : ∀ a b' : ℕ, ((decide (col.getD b' 0 ≤ col.getD a 0)) ||
      (decide (col.getD a 0 ≤ col.getD b' 0))) = true := by
    intro a b'
    simp only [Bool.or_eq_true, decide_eq_true_eq]
    exact le_total _ _
  have hsorted := List.sorted_mergeSort htrans htotal (List.range col.length)
  have hslen : ((List.range col.length).mergeSort
      (fun i j => decide (col.getD j 0 ≤ col.getD i 0))).length = col.length := by
    rw [List.length_mergeSort, List.length_range]
  cases hs : (List.range col.length).mergeSort
      (fun i j => decide (col.getD j 0 ≤ col.getD i 0)) with
  | nil =>
    exfalso
    rw [hs] at hslen
    simp at hslen
    omega
  | cons x rest =>
    rw [hs] at hsorted
    have hhead := (List.pairwise_cons.mp hsorted).1
    have hbmem : b ∈ x :: rest := by
      rw [← hs, List.mem_mergeSort]
      exact List.mem_range.mpr hb
    have hxb : b = x := by
      by_cases hxb' : x = b
      · exact hxb'.symm
      · exfalso
        rcases List.mem_cons.mp hbmem with h | h
        · exact hxb' h.symm
        · have hle := hhead b h
          simp only [decide_eq_true_eq] at hle
          rw [hget b, if_pos rfl, hget x, if_neg hxb'] at hle
          linarith
    subst hxb
    have hnodup : (b :: rest).Nodup := by
      rw [← hs]
      exact ((List.mergeSort_perm _ _).nodup_iff).mpr (List.nodup_range _)
    have hbrest : b ∉ rest := (List.nodup_cons.mp hnodup).1
    unfold columnPeaks topKIndices
    rw [if_neg hall, if_neg hpos, min_eq_left hlen, hs, List.take_succ_cons]
    have hpredb : (decide (¬ (col.getD b 0 < listMax col * (25 / 100)))) = true := by
      simp only [decide_eq_true_eq, not_lt]
      rw [hget b, if_pos rfl, hmax]
      linarith
    have hfilrest : (List.take 4 rest).filter
        (fun i => decide (¬ (col.getD i 0 < listMax col * (25 / 100)))) = [] := by
      rw [List.filter_eq_nil_iff]
      intro i hi
      have hirest : i ∈ rest := List.mem_of_mem_take hi
      have hib : ¬ i = b := fun h => hbrest (h ▸ hirest)
      simp only [decide_eq_true_eq, not_not]
      rw [hget i, if_neg hib, hmax]
      exact mul_pos hv (by norm_num)
    simp only [List.filter_cons]
    rw [hfilrest, hpredb]
    simp only [if_true]
    rw [List.map_cons, List.map_nil, hget b, if_pos rfl]

theorem extract_gridH : extractPeakConstellation gridH =
    [⟨0, 3, 4⟩, ⟨1, 7, 2⟩] := by
  have hA : columnPeaks 0 (spikeColumn 3 4) = [⟨0, 3, 4⟩] :=
    columnPeaks_single_spike 0 3 4 (spikeColumn 3 4)
      (by rw [spikeColumn_length]; norm_num) (by rw [spikeColumn_length]; norm_num)
      (by norm_num) (fun i => spikeColumn_getD 4 i (by norm_num))
  have hB : columnPeaks 1 (spikeColumn 7 2) = [⟨1, 7, 2⟩] :=
    columnPeaks_single_spike 1 7 2 (spikeColumn 7 2)
      (by rw [spikeColumn_length]; norm_num) (by rw [spikeColumn_length]; norm_num)
      (by norm_num) (fun i => spikeColumn_getD 2 i (by norm_num))
  unfold extractPeakConstellation gridH
  rw [show ([spikeColumn 3 4, spikeColumn 7 2].enum)
      = [(0, spikeColumn 3 4), (1, spikeColumn 7 2)] from rfl]
  rw [List.map_cons, List.map_cons, List.map_nil]
  dsimp only
  rw [hA, hB]
  rw [show ([[⟨0, 3, 4⟩], [⟨1, 7, 2⟩]] : List (List Peak)).flatten
      = [⟨0, 3, 4⟩, ⟨1, 7, 2⟩] from rfl]
  apply List.mergeSort_of_sorted
  simp [List.pairwise_cons, peakTimeLE]

theorem hashes_gridH : generate_constellation_hashes gridH = [((3, 7, 1), 0)] := by
  unfold generate_constellation_hashes hashPeaks
  rw [extract_gridH]
  have hraw : rawHashes [⟨0, 3, 4⟩, ⟨1, 7, 2⟩] = [((3, 7, 1), 0)] := by decide
  rw [hraw]
  simp [dedupFirst]

/-- C5 witness: a concrete grid with two 2048-row spike columns; the hasher
produces the entry `((3, 7, 1), 0)` and the theorem's bounds hold for the
whole (non-empty) output. -/
theorem hash_bounds_witness :
    (∀ c ∈ gridH, c.length = 2048) ∧
    ((3, 7, 1), 0) ∈ generate_constellation_hashes gridH ∧
    (∀ e ∈ generate_constellation_hashes gridH,
      0 < e.1.2.2 ∧ e.1.2.2 ≤ 20 ∧ e.1.1 < 2048 ∧ e.1.2.1 < 2048) := by
  have hrows : ∀ c ∈ gridH, c.length = 2048 := by
    intro c hc
    rcases List.mem_cons.mp hc with h | h
    · rw [h]
      exact spikeColumn_length 3 4
    · rcases List.mem_cons.mp h with h' | h'
      · rw [h']
        exact spikeColumn_length 7 2
      · cases h'
  refine ⟨hrows, ?_, hash_bounds gridH hrows⟩
  rw [hashes_gridH]
  exact List.mem_cons_self _ _

/-- C6: the hashing stage output (`list(dict.fromkeys(hashes))`) has no
duplicate `(hash_triple, t_anchor)` pair, is a sublist of the raw fan-out
stream (so the surviving first occurrences keep their original relative
order and no new entries appear), and is a fixed point of deduplication. -/
theorem hash_dedup_properties (peaks : List Peak) :
    (hashPeaks peaks).Nodup ∧
    (hashPeaks peaks).Sublist (rawHashes peaks) ∧
    (∀ e, e ∈ hashPeaks peaks ↔ e ∈ rawHashes peaks) ∧
    dedupFirst (hashPeaks peaks) = hashPeaks peaks := by
  refine ⟨nodup_dedupFirst _, dedupFirst_sublist _, fun e => mem_dedupFirst, ?_⟩
  exact dedupFirst_eq_self_of_nodup (nodup_dedupFirst _)
